import Mathlib

/-!
Verification development for the virtual-document / connection-manager core of
the repository (packages/lsp). The definitions below are shallow embeddings of
the TypeScript sources:

* `packages/lsp/src/virtual/document.ts` — `isWithinRange`, `VirtualDocument`
  (`clear`, `appendCodeBlock`, `value`, `maybeEmitChanged`,
  `virtualPositionAtDocument`, `transformVirtualToSource`,
  `transformSourceToEditor`, `transformVirtualToEditor`, `isWithinForeign`)
  and `UpdateManager.updateDocuments`;
* `packages/lsp/src/utils.ts` — `untilReady`;
* `packages/lsp/src/connection_manager.ts` — `Private.connection` (the pooled
  connection cache), `DocumentConnectionManager.retryToConnect`, and the
  permanently-ignored-languages set.

Modelling conventions:
* JS `Map<number, T>` becomes `Int → Option T`; `map.set` is pointwise update.
* JS numbers used as counters (`lastSourceLine`, `lastVirtualLine`) are `Nat`
  (they start at 0 and only grow by list lengths); map keys stay `Int` because
  lookups may receive arbitrary positions.
* A thrown JS exception is an `Except.error`: `PositionError` for the explicit
  `throw new PositionError(...)`, `typeError` for a dereference of `undefined`
  produced by `map.get(k)!` on a missing key, `rangeError` for stack exhaustion
  of the (potentially) unbounded recursion in `virtualPositionAtDocument`
  (modelled by fuel).
* Asynchronous execution is single-threaded and cooperative; a function body
  with no `await` (such as `Private.connection`) runs atomically and is
  modelled as a pure state transformer. Promise results are modelled by
  `PromiseOutcome` (resolved / rejected / pending).
-/

namespace JlabLsp

/-! ## Editor positions and ranges (`CodeEditor.IPosition`, `CodeEditor.IRange`) -/

structure CePosition where
  line : Int
  column : Int
deriving Repr, DecidableEq

structure CeRange where
  start : CePosition
  endPos : CePosition
deriving Repr, DecidableEq

/-- `isWithinRange` from `packages/lsp/src/virtual/document.ts` (lines 72-93),
translated clause by clause. `range.endPos` stands for the source's
`range.end` (`end` is a Lean keyword). -/
def isWithinRange (position : CePosition) (range : CeRange) : Bool :=
  if range.start.line = range.endPos.line then
    position.line = range.start.line ∧
    position.column ≥ range.start.column ∧
    position.column ≤ range.endPos.column
  else
    (position.line = range.start.line ∧
      position.column ≥ range.start.column ∧
      position.line < range.endPos.line) ∨
    (position.line > range.start.line ∧
      position.column ≤ range.endPos.column ∧
      position.line = range.endPos.line) ∨
    (position.line > range.start.line ∧ position.line < range.endPos.line)

/-! ## Position types (`ISourcePosition`, `IVirtualPosition`, `IEditorPosition`)

The source keeps these as distinct nominal types; we mirror that with three
structures so they cannot be interchanged. -/

structure SourcePos where
  line : Int
  ch : Int
deriving Repr, DecidableEq

structure VirtualPos where
  line : Int
  ch : Int
deriving Repr, DecidableEq

structure EditorPos where
  line : Int
  ch : Int
deriving Repr, DecidableEq

/-- A thrown JS exception. -/
inductive JsError where
  /-- `throw new PositionError(msg)` -/
  | positionError (msg : String)
  /-- dereferencing `undefined`, e.g. `map.get(k)!` on a missing key -/
  | typeError
  /-- `RangeError: Maximum call stack size exceeded` (runaway recursion) -/
  | rangeError
deriving Repr, DecidableEq

/-! ## JS `Map<number, T>` -/

/-- `map.set k v` on a number-keyed JS map. -/
def mapSet (m : Int → Option α) (k : Int) (v : α) : Int → Option α :=
  fun k2 => if k2 = k then some v else m k2

/-- A loop `for (let i = 0; i < n; i++) map.set(start + i, f i)`. -/
def mapSetRange (m : Int → Option α) (start : Int) (f : Nat → α) : Nat → (Int → Option α)
  | 0 => m
  | n + 1 => mapSet (mapSetRange m start f n) (start + n) (f n)

/-! ## Strings: `value.split('\n')`, `lines.join(sep)` -/

/-- JS `s.split('\n')` on the character list: a split point at every `'\n'`;
in particular `"".split('\n')` is `[""]` and the result is never empty. -/
def splitLinesGo : List Char → List String
  | [] => [""]
  | c :: cs =>
    if c = '\n' then "" :: splitLinesGo cs
    else
      match splitLinesGo cs with
      | [] => [String.mk [c]]
      | l :: ls => String.mk (c :: l.data) :: ls

/-- JS `s.split('\n')`. -/
def splitLines (s : String) : List String :=
  splitLinesGo s.data

/-- JS `array.join(sep)` (empty array joins to `""`). -/
def joinWith (sep : String) : List String → String
  | [] => ""
  | x :: xs => xs.foldl (fun acc y => acc ++ sep ++ y) x

/-- JS `'\n'.repeat n`. -/
def linesPadding (n : Nat) : String :=
  String.mk (List.replicate n '\n')

/-! ## The virtual document state

`VirtualDocument` from `packages/lsp/src/virtual/document.ts`. A source line
records a map of embedded (foreign) sub-documents, each holding a full
document, hence the mutual inductive. Fields that only matter for UI wiring
(signal objects, `unusedDocuments`, editor object identity) are reduced to an
editor identity token `Nat`. The `parent` back-pointer is not modelled: nothing
under `src/` ever constructs a child document, and all claims concern root
documents (for which `idPath = virtualId`). -/

structure IVirtualLine where
  skipInspect : List String
  sourceLine : Option Int
  editor : Nat
deriving Repr, DecidableEq

mutual

inductive VDocState : Type where
  | mk
    (language : String)
    (standalone : Bool)
    (instanceId : Nat)
    (isDisposed : Bool)
    (blankLinesBetweenCells : Nat)
    (lastSourceLine : Nat)
    (lastVirtualLine : Nat)
    (virtualLines : Int → Option IVirtualLine)
    (sourceLines : Int → Option SourceLineEntry)
    (lineBlocks : List String)
    (previousValue : Option String)

inductive SourceLineEntry : Type where
  | mk
    (virtualLine : Int)
    (editor : Nat)
    (editorLine : Int)
    (editorShift : CePosition)
    (foreignDocumentsMap : List (CeRange × ForeignBlockEntry))

inductive ForeignBlockEntry : Type where
  | mk
    (virtualLine : Int)
    (virtualDocument : VDocState)
    (editor : Nat)

end

def VDocState.language : VDocState → String
  | .mk x _ _ _ _ _ _ _ _ _ _ => x

def VDocState.standalone : VDocState → Bool
  | .mk _ x _ _ _ _ _ _ _ _ _ => x

def VDocState.instanceId : VDocState → Nat
  | .mk _ _ x _ _ _ _ _ _ _ _ => x

def VDocState.isDisposed : VDocState → Bool
  | .mk _ _ _ x _ _ _ _ _ _ _ => x

def VDocState.blankLinesBetweenCells : VDocState → Nat
  | .mk _ _ _ _ x _ _ _ _ _ _ => x

def VDocState.lastSourceLine : VDocState → Nat
  | .mk _ _ _ _ _ x _ _ _ _ _ => x

def VDocState.lastVirtualLine : VDocState → Nat
  | .mk _ _ _ _ _ _ x _ _ _ _ => x

def VDocState.virtualLines : VDocState → (Int → Option IVirtualLine)
  | .mk _ _ _ _ _ _ _ x _ _ _ => x

def VDocState.sourceLines : VDocState → (Int → Option SourceLineEntry)
  | .mk _ _ _ _ _ _ _ _ x _ _ => x

def VDocState.lineBlocks : VDocState → List String
  | .mk _ _ _ _ _ _ _ _ _ x _ => x

def VDocState.previousValue : VDocState → Option String
  | .mk _ _ _ _ _ _ _ _ _ _ x => x

def SourceLineEntry.virtualLine : SourceLineEntry → Int
  | .mk x _ _ _ _ => x

def SourceLineEntry.editor : SourceLineEntry → Nat
  | .mk _ x _ _ _ => x

def SourceLineEntry.editorLine : SourceLineEntry → Int
  | .mk _ _ x _ _ => x

def SourceLineEntry.editorShift : SourceLineEntry → CePosition
  | .mk _ _ _ x _ => x

def SourceLineEntry.foreignDocumentsMap : SourceLineEntry → List (CeRange × ForeignBlockEntry)
  | .mk _ _ _ _ x => x

def ForeignBlockEntry.virtualLine : ForeignBlockEntry → Int
  | .mk x _ _ => x

def ForeignBlockEntry.virtualDocument : ForeignBlockEntry → VDocState
  | .mk _ x _ => x

def ForeignBlockEntry.editor : ForeignBlockEntry → Nat
  | .mk _ _ x => x

/-- `virtualId` getter: instance id plus language for standalone documents,
bare language otherwise. -/
def VDocState.virtualId (d : VDocState) : String :=
  if d.standalone then toString d.instanceId ++ "(" ++ d.language ++ ")" else d.language

/-- `idPath` getter for a root document (no parent). -/
def VDocState.idPath (d : VDocState) : String :=
  d.virtualId

/-- The constructor's initial state (the constructor ends by calling
`this.clear()`, so maps are empty and counters are 0); `previousValue` starts
out `undefined` and `blankLinesBetweenCells` is 2. -/
def mkVirtualDocument (language : String) (standalone : Bool) (instanceId : Nat) : VDocState :=
  .mk language standalone instanceId false 2 0 0 (fun _ => none) (fun _ => none) [] none

/-- `VirtualDocument.clear` (document.ts lines 294-304): empties both line maps
and the block list and resets the counters. `previousValue` and the static
fields are untouched. -/
def VDocState.clear : VDocState → VDocState
  | .mk lang st iid disp blank _ _ _ _ _ pv =>
    .mk lang st iid disp blank 0 0 (fun _ => none) (fun _ => none) [] pv

/-- One entry of `updateDocuments`' input: `ICodeBlockOptions`
(an editor identity plus the cell text). -/
structure CodeBlock where
  ceEditor : Nat
  value : String
deriving Repr, DecidableEq

/-- `VirtualDocument.appendCodeBlock` (document.ts lines 406-463). The code
lines of the block extend both maps; `blankLinesBetweenCells` padding lines
with a `null` source line are appended to `virtualLines`; then the counters
advance. The disposed guard makes the call a no-op. -/
def VDocState.appendCodeBlock (doc : VDocState) (block : CodeBlock)
    (editorShift : CePosition := ⟨0, 0⟩) (virtualShift : Option CePosition := none) :
    VDocState :=
  if doc.isDisposed then doc else
  let sourceCellLines := splitLines block.value
  let lines := splitLines block.value
  let virtualLines1 := mapSetRange doc.virtualLines (doc.lastVirtualLine : Int)
    (fun i => { skipInspect := [], sourceLine := some ((doc.lastSourceLine + i : Nat) : Int),
                editor := block.ceEditor })
    lines.length
  let sourceLines1 := mapSetRange doc.sourceLines (doc.lastSourceLine : Int)
    (fun i => SourceLineEntry.mk
      ((doc.lastVirtualLine + i : Nat) : Int)
      block.ceEditor
      (i : Int)
      ⟨editorShift.line - ((virtualShift.map CePosition.line).getD 0),
        if i = 0 then editorShift.column - ((virtualShift.map CePosition.column).getD 0) else 0⟩
      [])
    sourceCellLines.length
  let lastVirtualLine1 := doc.lastVirtualLine + lines.length
  let lineBlocks1 := doc.lineBlocks ++ [joinWith "\n" lines ++ "\n"]
  let virtualLines2 := mapSetRange virtualLines1 (lastVirtualLine1 : Int)
    (fun _ => { skipInspect := [doc.idPath], sourceLine := none, editor := block.ceEditor })
    doc.blankLinesBetweenCells
  .mk doc.language doc.standalone doc.instanceId doc.isDisposed doc.blankLinesBetweenCells
    (doc.lastSourceLine + sourceCellLines.length)
    (lastVirtualLine1 + doc.blankLinesBetweenCells)
    virtualLines2 sourceLines1 lineBlocks1 doc.previousValue

/-- The `value` getter: `lineBlocks.join('\n'.repeat(blankLinesBetweenCells))`. -/
def VDocState.value (d : VDocState) : String :=
  joinWith (linesPadding d.blankLinesBetweenCells) d.lineBlocks

/-- `maybeEmitChanged` (document.ts lines 581-586): emit the `changed` signal
iff `value !== previousValue`, then remember `value`. Returns the new state and
whether the signal fired. -/
def VDocState.maybeEmitChanged : VDocState → VDocState × Bool
  | .mk lang st iid disp blank ls lv vl sl lb pv =>
    let v := VDocState.value (.mk lang st iid disp blank ls lv vl sl lb pv)
    (.mk lang st iid disp blank ls lv vl sl lb (some v), decide (some v ≠ pv))

/-! ## Position transformations -/

/-- `transformVirtualToSource` (document.ts lines 547-556):
`virtualLines.get(position.line)!.sourceLine`; a missing map entry would
dereference `undefined` (TypeError); a recorded `null` source line (padding)
yields the explicit `null` result. -/
def VDocState.transformVirtualToSource (doc : VDocState) (position : VirtualPos) :
    Except JsError (Option SourcePos) :=
  match doc.virtualLines position.line with
  | none => .error .typeError
  | some entry =>
    match entry.sourceLine with
    | none => .ok none
    | some line => .ok (some ⟨line, position.ch⟩)

/-- `transformSourceToEditor` (document.ts lines 515-526). -/
def VDocState.transformSourceToEditor (doc : VDocState) (pos : SourcePos) :
    Except JsError EditorPos :=
  match doc.sourceLines pos.line with
  | none => .error .typeError
  | some sourceLine =>
    .ok ⟨sourceLine.editorLine + sourceLine.editorShift.line,
      pos.ch + (if sourceLine.editorLine = 0 then sourceLine.editorShift.column else 0)⟩

/-- `transformVirtualToEditor` (document.ts lines 533-541): compose
`transformVirtualToSource` with `transformSourceToEditor`, propagating the
explicit `null`. -/
def VDocState.transformVirtualToEditor (doc : VDocState) (virtualPosition : VirtualPos) :
    Except JsError (Option EditorPos) :=
  match doc.transformVirtualToSource virtualPosition with
  | .error e => .error e
  | .ok none => .ok none
  | .ok (some sourcePosition) =>
    match doc.transformSourceToEditor sourcePosition with
    | .error e => .error e
    | .ok editorPosition => .ok (some editorPosition)

/-- `isWithinForeign` (document.ts lines 337-350); the `!` lookup throws on a
missing source line. -/
def VDocState.isWithinForeign (doc : VDocState) (sourcePosition : SourcePos) :
    Except JsError Bool :=
  match doc.sourceLines sourcePosition.line with
  | none => .error .typeError
  | some sourceLine =>
    let sourcePositionCe : CePosition := ⟨sourceLine.editorLine, sourcePosition.ch⟩
    .ok (sourceLine.foreignDocumentsMap.any fun rc => isWithinRange sourcePositionCe rc.1)

mutual

/-- `virtualPositionAtDocument` (document.ts lines 367-404). The unmapped case
throws a `PositionError`; the loop over `foreignDocumentsMap` may recurse into
`this.virtualPositionAtDocument` (depth bounded by `fuel`, whose exhaustion is
the JS stack-overflow `RangeError`). -/
def VDocState.virtualPositionAtDocument (doc : VDocState) (fuel : Nat)
    (sourcePosition : SourcePos) : Except JsError VirtualPos :=
  match fuel with
  | 0 => .error .rangeError
  | fuel + 1 =>
    match doc.sourceLines sourcePosition.line with
    | none => .error (.positionError "Source line not mapped to virtual position")
    | some sourceLine =>
      let sourcePositionCe : CePosition := ⟨sourceLine.editorLine, sourcePosition.ch⟩
      virtualPositionLoop doc fuel sourcePosition sourceLine.virtualLine sourcePositionCe
        sourceLine.foreignDocumentsMap
termination_by (fuel, 0)

/-- The `for (let [range, content] of sourceLine.foreignDocumentsMap)` loop of
`virtualPositionAtDocument`, with its fall-through result. -/
def virtualPositionLoop (doc : VDocState) (fuel : Nat) (sourcePosition : SourcePos)
    (virtualLine : Int) (sourcePositionCe : CePosition) :
    List (CeRange × ForeignBlockEntry) → Except JsError VirtualPos
  | [] => .ok ⟨virtualLine, sourcePosition.ch⟩
  | (range, content) :: rest =>
    if isWithinRange sourcePositionCe range then
      let sourcePositionCm : SourcePos :=
        ⟨sourcePositionCe.line - range.start.line, sourcePositionCe.column - range.start.column⟩
      match content.virtualDocument.isWithinForeign sourcePositionCm with
      | .error e => .error e
      | .ok true => doc.virtualPositionAtDocument fuel sourcePositionCm
      | .ok false => .ok ⟨sourcePositionCm.line + content.virtualLine, sourcePositionCm.ch⟩
    else
      virtualPositionLoop doc fuel sourcePosition virtualLine sourcePositionCe rest
termination_by entries => (fuel, entries.length + 1)

end

/-! ## `UpdateManager.updateDocuments` (document.ts lines 699-739)

The rebuild body is synchronous: clear the document, re-append each block,
then `maybeEmitChanged`. It only runs once the `untilReady` poll for
`canUpdate()` resolves. -/

/-- The rebuild performed by `updateDocuments` once the poll-wait resolves:
`clear()` followed by `appendCodeBlock(codeBlock)` for each block (with the
default shifts). The `blockAdded` signal only feeds editor-to-line
bookkeeping and has no effect on the document state. -/
def rebuiltDoc (doc : VDocState) (blocks : List CodeBlock) : VDocState :=
  blocks.foldl (fun acc b => acc.appendCodeBlock b) doc.clear

/-- Outcome of a JS promise, as observed by a caller. -/
inductive PromiseOutcome (α : Type) where
  | resolved (value : α)
  | rejected (message : String)
  | pending
deriving Repr, DecidableEq

/-- `untilReady` from `packages/lsp/src/utils.ts` (lines 11-30) with the
identity `intervalModifier`. `isReady` is the sequence of values the predicate
returns at successive polls; `i` is the retrial counter; `fuel` bounds how
many polls we unfold (a still-running loop is a `pending` promise; for
`maxRetrials = 10` twelve polls always suffice, cf. the theorems below). The
`reject('Too many retrials')` fires once `i` exceeds `maxRetrials` (unless
`maxRetrials` is `-1`), and the `resolve` after the `break` is a no-op on an
already-rejected promise. -/
def untilReadyRun (isReady : Nat → Bool) (maxRetrials : Int) :
    Nat → Nat → Nat → PromiseOutcome Unit
  | _, _, 0 => .pending
  | i, idx, fuel + 1 =>
    if isReady idx then .resolved ()
    else
      if maxRetrials ≠ -1 ∧ ((i + 1 : Nat) : Int) > maxRetrials then
        .rejected "Too many retrials"
      else untilReadyRun isReady maxRetrials (i + 1) (idx + 1) fuel

/-- `untilReady(isReady, maxRetrials, interval)` (the interval only affects
real time, not the outcome). -/
def untilReady (isReady : Nat → Bool) (maxRetrials : Int) (fuel : Nat) : PromiseOutcome Unit :=
  untilReadyRun isReady maxRetrials 0 0 fuel

/-- Observable outcome of one `updateDocuments` call. -/
structure UpdateOutcome where
  doc : VDocState
  rebuildRan : Bool
  changedEmitted : Bool
  promise : PromiseOutcome Unit

/-- `UpdateManager.updateDocuments(blocks)`. `canUpdate` is the sequence of
values `this.canUpdate()` returns at successive polls of the
`untilReady(() => this.canUpdate(), 10, 5)` guard. If that promise rejects
(retry budget exhausted), the `.then` callback holding the whole rebuild is
skipped and the outer promise is never resolved nor rejected: the update does
not run and the returned promise stays pending. If it resolves, the rebuild
body runs synchronously and resolves the promise. (The disposed check inside
the callback calls `resolve()` but does not return; the body still runs, with
`appendCodeBlock` no-oping on a disposed document, and the promise is resolved
either way, so the resolved case below covers it.) -/
def UpdateManager.updateDocuments (canUpdate : Nat → Bool) (doc : VDocState)
    (blocks : List CodeBlock) (fuel : Nat) : UpdateOutcome :=
  match untilReady canUpdate 10 fuel with
  | .pending => { doc := doc, rebuildRan := false, changedEmitted := false, promise := .pending }
  | .rejected _ =>
    { doc := doc, rebuildRan := false, changedEmitted := false, promise := .pending }
  | .resolved _ =>
    let rebuilt := rebuiltDoc doc blocks
    let emitResult := rebuilt.maybeEmitChanged
    { doc := emitResult.1, rebuildRan := true, changedEmitted := emitResult.2,
      promise := .resolved () }

/-! ## The connection pool (`Private.connection`, connection_manager.ts lines 404-434)

`Private.connection` is an `async function` whose body contains no `await`, so
in the single-threaded event loop it runs atomically: the `_connections.set`
happens synchronously before the transport setup (`connection.connect(socket)`)
and before `onCreate`, and before any other task — in particular a second
concurrent caller — can run. We therefore model it as a pure state
transformer. A physical connection object is identified by a fresh `Nat`. -/

structure PoolState where
  /-- `_connections`: the language-server-id-keyed cache, in insertion order. -/
  connections : List (String × Nat)
  /-- Allocator for physical connection object identities. -/
  nextConnectionId : Nat
  /-- The connection passed to each `onCreate(connection)` call, in order. -/
  onCreateCalls : List Nat
deriving Repr, DecidableEq

/-- `_connections.get(key)`. -/
def lookupConnection (l : List (String × Nat)) (key : String) : Option Nat :=
  (l.find? fun e => e.1 == key).map Prod.snd

/-- `Private.connection(language, languageServerId, uris, onCreate, ...)`:
return the cached connection for `languageServerId`, or create one, cache it
(before the transport setup), connect it and call `onCreate` exactly once; the
function ends by re-reading `_connections.get(languageServerId)!`. -/
def Private.connection (st : PoolState) (languageServerId : String) : Nat × PoolState :=
  match lookupConnection st.connections languageServerId with
  | some _ =>
    ((lookupConnection st.connections languageServerId).getD 0, st)
  | none =>
    let c := st.nextConnectionId
    let st2 : PoolState :=
      { connections := st.connections ++ [(languageServerId, c)]
        nextConnectionId := c + 1
        onCreateCalls := st.onCreateCalls ++ [c] }
    ((lookupConnection st2.connections languageServerId).getD 0, st2)

/-! ## `DocumentConnectionManager.retryToConnect` and the ignored-languages set

(connection_manager.ts lines 226-257 and the `code = 1005` error handler that
adds to `ignoredLanguages`.) -/

structure ManagerState where
  /-- `ignoredLanguages : Set<string>`; only ever tested and added to. -/
  ignoredLanguages : List String
deriving Repr, DecidableEq

/-- `this.ignoredLanguages.add(language)` (JS `Set.add`). -/
def ManagerState.addIgnored (st : ManagerState) (language : String) : ManagerState :=
  if st.ignoredLanguages.contains language then st
  else ⟨st.ignoredLanguages ++ [language]⟩

/-- The loop state of `retryToConnect`: the `success` flag, the current
`interval` (milliseconds), plus instrumentation recording how many `connect`
attempts were made and which sleeps were performed. -/
structure RetryResult where
  success : Bool
  interval : Int
  attempts : Nat
  sleeps : List Int
deriving Repr, DecidableEq

/-- One iteration of the `while (retrialsLeft !== 0 && !success)` body:
attempt `connect` (`connectSucceeds` indexed by attempt number; a failure is
caught and only logged), `await sleep(interval)`, then grow the interval by
500 ms while it is below 5000 ms. Note that the body never modifies
`retrialsLeft`. -/
def retryLoopStep (connectSucceeds : Nat → Bool) (s : RetryResult) : RetryResult :=
  { success := s.success || connectSucceeds s.attempts
    interval := if s.interval < 5 * 1000 then s.interval + 500 else s.interval
    attempts := s.attempts + 1
    sleeps := s.sleeps ++ [s.interval] }

/-- Run the retry loop for up to `fuel` iterations. `retrialsLeft` is the
(never-decremented) loop variable; the guard is `retrialsLeft !== 0 && !success`. -/
def retryLoopRun (connectSucceeds : Nat → Bool) (retrialsLeft : Int) :
    Nat → RetryResult → RetryResult
  | 0, s => s
  | fuel + 1, s =>
    if retrialsLeft ≠ 0 ∧ s.success = false then
      retryLoopRun connectSucceeds retrialsLeft fuel (retryLoopStep connectSucceeds s)
    else s

/-- `DocumentConnectionManager.retryToConnect(options, reconnectDelay,
retrialsLeft)`: return immediately if the document's language is ignored;
otherwise initialize `interval = reconnectDelay * 1000`, `success = false` and
run the loop (`fuel` bounds the number of iterations we unfold; exiting with
the guard still true means the real loop is still running). -/
def DocumentConnectionManager.retryToConnect (st : ManagerState) (language : String)
    (reconnectDelay : Int) (retrialsLeft : Int) (connectSucceeds : Nat → Bool)
    (fuel : Nat) : RetryResult :=
  if st.ignoredLanguages.contains language then
    { success := false, interval := reconnectDelay * 1000, attempts := 0, sleeps := [] }
  else
    retryLoopRun connectSucceeds retrialsLeft fuel
      { success := false, interval := reconnectDelay * 1000, attempts := 0, sleeps := [] }

/-- The session-level operations of `DocumentConnectionManager` that touch the
ignored-languages set or attempt connections. `connectionRejected` is the
`code = 1005` branch of the `onNewConnection` error handler, which adds the
document's language to `ignoredLanguages` (no operation in the source ever
removes from or clears that set). -/
inductive ManagerOp where
  | connectionRejected (language : String)
  | retryToConnect (language : String) (reconnectDelay : Int) (retrialsLeft : Int)
      (connectSucceeds : Nat → Bool) (fuel : Nat)
  | connect (language : String)

/-- A connection attempt observable from outside. -/
inductive ManagerEvent where
  | connectAttempt (language : String)
deriving Repr, DecidableEq

/-- Apply one operation: the new manager state and the connection attempts it
performed. -/
def applyOp (st : ManagerState) : ManagerOp → ManagerState × List ManagerEvent
  | .connectionRejected language => (st.addIgnored language, [])
  | .retryToConnect language reconnectDelay retrialsLeft connectSucceeds fuel =>
    let r := DocumentConnectionManager.retryToConnect st language reconnectDelay
      retrialsLeft connectSucceeds fuel
    (st, List.replicate r.attempts (.connectAttempt language))
  | .connect language => (st, [.connectAttempt language])

/-- Apply a sequence of operations, accumulating events. -/
def applyOps (st : ManagerState) : List ManagerOp → ManagerState × List ManagerEvent
  | [] => (st, [])
  | op :: ops =>
    let r := applyOp st op
    let rest := applyOps r.1 ops
    (rest.1, r.2 ++ rest.2)

/-! ## Helper definitions for stating the document claims -/

/-- Number of lines of a block's text (`value.split('\n').length`). -/
def blockLineCount (b : CodeBlock) : Nat :=
  (splitLines b.value).length

/-- Total number of source lines contributed by a list of blocks. -/
def totalLines (blocks : List CodeBlock) : Nat :=
  (blocks.map blockLineCount).sum

/-- Number of `virtualLines` entries (within `[0, lastVirtualLine)`) whose
recorded source line is `null`. -/
def countPadding (d : VDocState) : Nat :=
  (List.range d.lastVirtualLine).countP fun k : Nat =>
    match d.virtualLines (k : Int) with
    | some e => e.sourceLine.isNone
    | none => false

/-- Replace `previousValue` (the assignment at the end of `maybeEmitChanged`). -/
def VDocState.withPreviousValue : VDocState → Option String → VDocState
  | .mk lang st iid disp blank ls lv vl sl lb _, pv =>
    .mk lang st iid disp blank ls lv vl sl lb pv

/-! ## Helper lemmas -/

theorem mapSetRange_eval (m : Int → Option α) (start : Int) (f : Nat → α) (n : Nat) (k : Int) :
    mapSetRange m start f n k =
      if start ≤ k ∧ k < start + n then some (f (k - start).toNat) else m k := by
  induction n with
  | zero =>
    simp only [mapSetRange]
    rw [if_neg]
    omega
  | succ n ih =>
    simp only [mapSetRange, mapSet]
    by_cases hk : k = start + n
    · subst hk
      rw [if_pos rfl, if_pos (by omega)]
      congr 1
      congr 1
      omega
    · rw [if_neg hk, ih]
      by_cases hin : start ≤ k ∧ k < start + n
      · rw [if_pos hin, if_pos (by omega)]
      · rw [if_neg hin, if_neg (by omega)]

theorem lookupConnection_append_self (l : List (String × Nat)) (key : String) (v : Nat)
    (h : lookupConnection l key = none) :
    lookupConnection (l ++ [(key, v)]) key = some v := by
  have hfind : l.find? (fun e => e.1 == key) = none := by
    cases hf : l.find? (fun e => e.1 == key) with
    | none => rfl
    | some e => rw [lookupConnection, hf] at h; simp at h
  rw [lookupConnection, List.find?_append, hfind]
  simp [List.find?]

theorem retryLoopRun_allFail (retrialsLeft : Int) (h0 : retrialsLeft ≠ 0) :
    ∀ (fuel : Nat) (s : RetryResult), s.success = false →
      (retryLoopRun (fun _ => false) retrialsLeft fuel s).attempts = s.attempts + fuel ∧
      (retryLoopRun (fun _ => false) retrialsLeft fuel s).success = false := by
  intro fuel
  induction fuel with
  | zero => intro s hs; simp [retryLoopRun, hs]
  | succ fuel ih =>
    intro s hs
    rw [retryLoopRun, if_pos ⟨h0, hs⟩]
    have hstep : (retryLoopStep (fun _ => false) s).success = false := by
      simp [retryLoopStep, hs]
    obtain ⟨h1, h2⟩ := ih (retryLoopStep (fun _ => false) s) hstep
    refine ⟨?_, h2⟩
    rw [h1]
    simp [retryLoopStep]
    omega

theorem addIgnored_mono (st : ManagerState) (language other : String)
    (h : st.ignoredLanguages.contains language = true) :
    (st.addIgnored other).ignoredLanguages.contains language = true := by
  rw [ManagerState.addIgnored]
  by_cases hc : st.ignoredLanguages.contains other
  · rw [if_pos hc]; exact h
  · rw [if_neg hc]
    simp only [ManagerState.ignoredLanguages] at h ⊢
    simp at h ⊢
    exact Or.inl h

theorem applyOp_ignored_mono (st : ManagerState) (op : ManagerOp) (language : String)
    (h : st.ignoredLanguages.contains language = true) :
    (applyOp st op).1.ignoredLanguages.contains language = true := by
  cases op with
  | connectionRejected other => exact addIgnored_mono st language other h
  | retryToConnect _ _ _ _ _ => exact h
  | connect _ => exact h

theorem clear_eval (d : VDocState) :
    d.clear = .mk d.language d.standalone d.instanceId d.isDisposed
      d.blankLinesBetweenCells 0 0 (fun _ => none) (fun _ => none) [] d.previousValue := by
  cases d
  rfl

theorem clear_proj (d : VDocState) :
    d.clear.language = d.language
    ∧ d.clear.standalone = d.standalone
    ∧ d.clear.instanceId = d.instanceId
    ∧ d.clear.isDisposed = d.isDisposed
    ∧ d.clear.blankLinesBetweenCells = d.blankLinesBetweenCells
    ∧ d.clear.previousValue = d.previousValue
    ∧ d.clear.lastSourceLine = 0
    ∧ d.clear.lastVirtualLine = 0
    ∧ d.clear.virtualLines = (fun _ => none)
    ∧ d.clear.sourceLines = (fun _ => none)
    ∧ d.clear.lineBlocks = [] := by
  cases d
  exact ⟨rfl, rfl, rfl, rfl, rfl, rfl, rfl, rfl, rfl, rfl, rfl⟩

theorem withPreviousValue_eval (d : VDocState) (pv : Option String) :
    d.withPreviousValue pv = .mk d.language d.standalone d.instanceId d.isDisposed
      d.blankLinesBetweenCells d.lastSourceLine d.lastVirtualLine d.virtualLines d.sourceLines
      d.lineBlocks pv := by
  cases d
  rfl

theorem maybeEmitChanged_eval (d : VDocState) :
    d.maybeEmitChanged =
      (d.withPreviousValue (some d.value), decide (some d.value ≠ d.previousValue)) := by
  cases d
  rfl

/-- `appendCodeBlock` with the default shifts, on a non-disposed document,
written as one constructor application. -/
theorem appendCodeBlock_eval (doc : VDocState) (block : CodeBlock)
    (h : doc.isDisposed = false) :
    doc.appendCodeBlock block = .mk doc.language doc.standalone doc.instanceId doc.isDisposed
      doc.blankLinesBetweenCells
      (doc.lastSourceLine + blockLineCount block)
      (doc.lastVirtualLine + blockLineCount block + doc.blankLinesBetweenCells)
      (mapSetRange
        (mapSetRange doc.virtualLines (doc.lastVirtualLine : Int)
          (fun i => ⟨[], some ((doc.lastSourceLine + i : Nat) : Int), block.ceEditor⟩)
          (blockLineCount block))
        ((doc.lastVirtualLine + blockLineCount block : Nat) : Int)
        (fun _ => ⟨[doc.idPath], none, block.ceEditor⟩)
        doc.blankLinesBetweenCells)
      (mapSetRange doc.sourceLines (doc.lastSourceLine : Int)
        (fun i => .mk ((doc.lastVirtualLine + i : Nat) : Int) block.ceEditor (i : Int)
          ⟨0, 0⟩ [])
        (blockLineCount block))
      (doc.lineBlocks ++ [joinWith "\n" (splitLines block.value) ++ "\n"])
      doc.previousValue := by
  rw [VDocState.appendCodeBlock]
  rw [if_neg (by rw [h]; exact Bool.false_ne_true)]
  simp only [blockLineCount]
  congr 1
  funext i
  congr 1
  simp

theorem appendCodeBlock_counters (doc : VDocState) (block : CodeBlock)
    (h : doc.isDisposed = false) :
    (doc.appendCodeBlock block).lastSourceLine = doc.lastSourceLine + blockLineCount block
    ∧ (doc.appendCodeBlock block).lastVirtualLine =
      doc.lastVirtualLine + blockLineCount block + doc.blankLinesBetweenCells
    ∧ (doc.appendCodeBlock block).lineBlocks =
      doc.lineBlocks ++ [joinWith "\n" (splitLines block.value) ++ "\n"] := by
  rw [appendCodeBlock_eval doc block h]
  exact ⟨rfl, rfl, rfl⟩

theorem appendCodeBlock_static (doc : VDocState) (block : CodeBlock)
    (editorShift : CePosition) (virtualShift : Option CePosition) :
    (doc.appendCodeBlock block editorShift virtualShift).language = doc.language
    ∧ (doc.appendCodeBlock block editorShift virtualShift).standalone = doc.standalone
    ∧ (doc.appendCodeBlock block editorShift virtualShift).instanceId = doc.instanceId
    ∧ (doc.appendCodeBlock block editorShift virtualShift).isDisposed = doc.isDisposed
    ∧ (doc.appendCodeBlock block editorShift virtualShift).blankLinesBetweenCells =
      doc.blankLinesBetweenCells
    ∧ (doc.appendCodeBlock block editorShift virtualShift).previousValue = doc.previousValue := by
  rw [VDocState.appendCodeBlock]
  by_cases hd : doc.isDisposed = true
  · rw [if_pos hd]
    exact ⟨rfl, rfl, rfl, rfl, rfl, rfl⟩
  · rw [if_neg hd]
    exact ⟨rfl, rfl, rfl, rfl, rfl, rfl⟩

theorem appendCodeBlock_virtualLines (doc : VDocState) (block : CodeBlock)
    (h : doc.isDisposed = false) (k : Int) :
    (doc.appendCodeBlock block).virtualLines k =
      if ((doc.lastVirtualLine + blockLineCount block : Nat) : Int) ≤ k ∧
          k < ((doc.lastVirtualLine + blockLineCount block + doc.blankLinesBetweenCells
            : Nat) : Int) then
        some ⟨[doc.idPath], none, block.ceEditor⟩
      else if ((doc.lastVirtualLine : Nat) : Int) ≤ k ∧
          k < ((doc.lastVirtualLine + blockLineCount block : Nat) : Int) then
        some ⟨[], some ((doc.lastSourceLine : Int) + (k - (doc.lastVirtualLine : Int))),
          block.ceEditor⟩
      else doc.virtualLines k := by
  rw [appendCodeBlock_eval doc block h, VDocState.virtualLines]
  rw [mapSetRange_eval]
  by_cases hpad : ((doc.lastVirtualLine + blockLineCount block : Nat) : Int) ≤ k ∧
      k < ((doc.lastVirtualLine + blockLineCount block + doc.blankLinesBetweenCells
        : Nat) : Int)
  · rw [if_pos (by push_cast at hpad ⊢; omega), if_pos hpad]
  · rw [if_neg (by push_cast at hpad ⊢; omega), if_neg hpad, mapSetRange_eval]
    by_cases hcode : ((doc.lastVirtualLine : Nat) : Int) ≤ k ∧
        k < ((doc.lastVirtualLine + blockLineCount block : Nat) : Int)
    · rw [if_pos (by push_cast at hcode ⊢; omega), if_pos hcode]
      have harith : ((doc.lastSourceLine + (k - (doc.lastVirtualLine : Int)).toNat : Nat)
          : Int) = (doc.lastSourceLine : Int) + (k - (doc.lastVirtualLine : Int)) := by
        push_cast at hcode ⊢
        omega
      rw [harith]
    · rw [if_neg (by push_cast at hcode ⊢; omega), if_neg hcode]

theorem appendCodeBlock_sourceLines (doc : VDocState) (block : CodeBlock)
    (h : doc.isDisposed = false) (k : Int) :
    (doc.appendCodeBlock block).sourceLines k =
      if ((doc.lastSourceLine : Nat) : Int) ≤ k ∧
          k < ((doc.lastSourceLine + blockLineCount block : Nat) : Int) then
        some (.mk ((doc.lastVirtualLine : Int) + (k - (doc.lastSourceLine : Int)))
          block.ceEditor (k - (doc.lastSourceLine : Int)) ⟨0, 0⟩ [])
      else doc.sourceLines k := by
  rw [appendCodeBlock_eval doc block h, VDocState.sourceLines]
  rw [mapSetRange_eval]
  by_cases hcode : ((doc.lastSourceLine : Nat) : Int) ≤ k ∧
      k < ((doc.lastSourceLine + blockLineCount block : Nat) : Int)
  · rw [if_pos (by push_cast at hcode ⊢; omega), if_pos hcode]
    have harith1 : ((doc.lastVirtualLine + (k - (doc.lastSourceLine : Int)).toNat : Nat)
        : Int) = (doc.lastVirtualLine : Int) + (k - (doc.lastSourceLine : Int)) := by
      push_cast at hcode ⊢
      omega
    have harith2 : (((k - (doc.lastSourceLine : Int)).toNat : Nat) : Int) =
        k - (doc.lastSourceLine : Int) := by
      push_cast at hcode ⊢
      omega
    rw [harith1, harith2]
  · rw [if_neg (by push_cast at hcode ⊢; omega), if_neg hcode]

/-- Appending never touches already-written virtual lines, and the virtual
counter only grows. -/
theorem appendCodeBlock_preserves_below (doc : VDocState) (block : CodeBlock) (k : Int)
    (hk : k < (doc.lastVirtualLine : Int)) :
    (doc.appendCodeBlock block).virtualLines k = doc.virtualLines k
    ∧ doc.lastVirtualLine ≤ (doc.appendCodeBlock block).lastVirtualLine := by
  by_cases hd : doc.isDisposed = true
  · rw [VDocState.appendCodeBlock, if_pos hd]
    exact ⟨rfl, Nat.le_refl _⟩
  · have h : doc.isDisposed = false := by
      cases hval : doc.isDisposed
      · rfl
      · exact absurd hval hd
    constructor
    · rw [appendCodeBlock_virtualLines doc block h k]
      rw [if_neg (by push_cast; omega), if_neg (by push_cast; omega)]
    · rw [(appendCodeBlock_counters doc block h).2.1]
      omega

theorem foldl_preserves_below (blocks : List CodeBlock) :
    ∀ (doc : VDocState) (k : Int), k < (doc.lastVirtualLine : Int) →
      (blocks.foldl (fun acc b => acc.appendCodeBlock b) doc).virtualLines k =
        doc.virtualLines k
      ∧ doc.lastVirtualLine ≤
        (blocks.foldl (fun acc b => acc.appendCodeBlock b) doc).lastVirtualLine := by
  induction blocks with
  | nil => intro doc k _; exact ⟨rfl, Nat.le_refl _⟩
  | cons b blocks ih =>
    intro doc k hk
    rw [List.foldl_cons]
    obtain ⟨h1, h2⟩ := appendCodeBlock_preserves_below doc b k hk
    obtain ⟨h3, h4⟩ := ih (doc.appendCodeBlock b) k (by omega)
    exact ⟨h3.trans h1, h2.trans h4⟩

theorem foldl_static (blocks : List CodeBlock) :
    ∀ doc : VDocState,
      (blocks.foldl (fun acc b => acc.appendCodeBlock b) doc).language = doc.language
      ∧ (blocks.foldl (fun acc b => acc.appendCodeBlock b) doc).standalone = doc.standalone
      ∧ (blocks.foldl (fun acc b => acc.appendCodeBlock b) doc).instanceId = doc.instanceId
      ∧ (blocks.foldl (fun acc b => acc.appendCodeBlock b) doc).isDisposed = doc.isDisposed
      ∧ (blocks.foldl (fun acc b => acc.appendCodeBlock b) doc).blankLinesBetweenCells =
        doc.blankLinesBetweenCells
      ∧ (blocks.foldl (fun acc b => acc.appendCodeBlock b) doc).previousValue =
        doc.previousValue := by
  induction blocks with
  | nil => intro doc; exact ⟨rfl, rfl, rfl, rfl, rfl, rfl⟩
  | cons b blocks ih =>
    intro doc
    rw [List.foldl_cons]
    obtain ⟨s1, s2, s3, s4, s5, s6⟩ := appendCodeBlock_static doc b ⟨0, 0⟩ none
    obtain ⟨t1, t2, t3, t4, t5, t6⟩ := ih (doc.appendCodeBlock b)
    exact ⟨t1.trans s1, t2.trans s2, t3.trans s3, t4.trans s4, t5.trans s5, t6.trans s6⟩

theorem rebuiltDoc_static (doc : VDocState) (blocks : List CodeBlock) :
    (rebuiltDoc doc blocks).language = doc.language
    ∧ (rebuiltDoc doc blocks).standalone = doc.standalone
    ∧ (rebuiltDoc doc blocks).instanceId = doc.instanceId
    ∧ (rebuiltDoc doc blocks).isDisposed = doc.isDisposed
    ∧ (rebuiltDoc doc blocks).blankLinesBetweenCells = doc.blankLinesBetweenCells
    ∧ (rebuiltDoc doc blocks).previousValue = doc.previousValue := by
  rw [rebuiltDoc]
  obtain ⟨t1, t2, t3, t4, t5, t6⟩ := foldl_static blocks doc.clear
  obtain ⟨c1, c2, c3, c4, c5, c6, _⟩ := clear_proj doc
  exact ⟨t1.trans c1, t2.trans c2, t3.trans c3, t4.trans c4, t5.trans c5, t6.trans c6⟩

theorem foldl_lineBlocks (blocks : List CodeBlock) :
    ∀ doc : VDocState, doc.isDisposed = false →
      (blocks.foldl (fun acc b => acc.appendCodeBlock b) doc).lineBlocks =
        doc.lineBlocks ++ blocks.map (fun b => joinWith "\n" (splitLines b.value) ++ "\n") := by
  induction blocks with
  | nil => intro doc _; simp
  | cons b blocks ih =>
    intro doc hd
    rw [List.foldl_cons, ih (doc.appendCodeBlock b)
      (((appendCodeBlock_static doc b ⟨0, 0⟩ none).2.2.2.1).trans hd),
      (appendCodeBlock_counters doc b hd).2.2]
    simp

/-- The rebuilt document's text is a function of the blocks and the (preserved)
separator width only. -/
theorem rebuiltDoc_value (doc : VDocState) (blocks : List CodeBlock)
    (hd : doc.isDisposed = false) :
    (rebuiltDoc doc blocks).value =
      joinWith (linesPadding doc.blankLinesBetweenCells)
        (blocks.map fun b => joinWith "\n" (splitLines b.value) ++ "\n") := by
  rw [VDocState.value, (rebuiltDoc_static doc blocks).2.2.2.2.1]
  rw [rebuiltDoc, foldl_lineBlocks blocks doc.clear ((clear_proj doc).2.2.2.1.trans hd)]
  rw [(clear_proj doc).2.2.2.2.2.2.2.2.2.2]
  simp

/-- The invariant maintained by `clear()` followed by `appendCodeBlock`s (with
the default shifts, as in `updateDocuments`): counter values, exact map
domains, the two-way source/virtual line linkage (all appended lines have an
empty embedded-documents map), and the count of `null`-source padding
entries. -/
structure BuildInv (d : VDocState) (nBlocks totLines : Nat) : Prop where
  disposed : d.isDisposed = false
  lastSrc : d.lastSourceLine = totLines
  lastVirt : d.lastVirtualLine = totLines + nBlocks * d.blankLinesBetweenCells
  srcDom : ∀ k : Int, (d.sourceLines k).isSome = true ↔
    (0 ≤ k ∧ k < (d.lastSourceLine : Int))
  virtDom : ∀ k : Int, (d.virtualLines k).isSome = true ↔
    (0 ≤ k ∧ k < (d.lastVirtualLine : Int))
  link : ∀ k : Int, 0 ≤ k → k < (d.lastSourceLine : Int) →
    ∃ e, d.sourceLines k = some e ∧ e.foreignDocumentsMap = [] ∧
      0 ≤ e.virtualLine ∧ e.virtualLine < (d.lastVirtualLine : Int) ∧
      ∃ ve, d.virtualLines e.virtualLine = some ve ∧ ve.sourceLine = some k
  padCount : countPadding d = nBlocks * d.blankLinesBetweenCells

theorem buildInv_clear (d : VDocState) (hd : d.isDisposed = false) :
    BuildInv d.clear 0 0 := by
  obtain ⟨_, _, _, c4, _, _, c7, c8, c9, c10, _⟩ := clear_proj d
  refine ⟨c4.trans hd, c7, by rw [c8]; simp, ?_, ?_, ?_, ?_⟩
  · intro k
    rw [c10, c7]
    simp
    try omega
  · intro k
    rw [c9, c8]
    simp
    try omega
  · intro k h0 h1
    rw [c7] at h1
    exact absurd h1 (by omega)
  · rw [countPadding, c8]
    simp

theorem buildInv_append {d : VDocState} {n t : Nat} (inv : BuildInv d n t) (b : CodeBlock) :
    BuildInv (d.appendCodeBlock b) (n + 1) (t + blockLineCount b) := by
  obtain ⟨hd, hS, hV, hsrc, hvirt, hlink, hpad⟩ := inv
  obtain ⟨hS', hV', _⟩ := appendCodeBlock_counters d b hd
  obtain ⟨_, _, _, hd', hB', _⟩ := appendCodeBlock_static d b ⟨0, 0⟩ none
  refine ⟨hd'.trans hd, by rw [hS', hS], by rw [hV', hB', hV]; ring, ?_, ?_, ?_, ?_⟩
  · intro k
    rw [appendCodeBlock_sourceLines d b hd k, hS']
    by_cases hin : ((d.lastSourceLine : Nat) : Int) ≤ k ∧
        k < ((d.lastSourceLine + blockLineCount b : Nat) : Int)
    · rw [if_pos hin]
      push_cast at hin ⊢
      simp
      omega
    · rw [if_neg hin, hsrc k]
      push_cast at hin ⊢
      omega
  · intro k
    rw [appendCodeBlock_virtualLines d b hd k, hV']
    by_cases hp : ((d.lastVirtualLine + blockLineCount b : Nat) : Int) ≤ k ∧
        k < ((d.lastVirtualLine + blockLineCount b + d.blankLinesBetweenCells : Nat) : Int)
    · rw [if_pos hp]
      push_cast at hp ⊢
      simp
      omega
    · rw [if_neg hp]
      by_cases hc : ((d.lastVirtualLine : Nat) : Int) ≤ k ∧
          k < ((d.lastVirtualLine + blockLineCount b : Nat) : Int)
      · rw [if_pos hc]
        push_cast at hc hp ⊢
        simp
        omega
      · rw [if_neg hc, hvirt k]
        push_cast at hc hp ⊢
        omega
  · intro k h0 h1
    rw [hS'] at h1
    by_cases hnew : ((d.lastSourceLine : Nat) : Int) ≤ k
    · refine ⟨.mk ((d.lastVirtualLine : Int) + (k - (d.lastSourceLine : Int))) b.ceEditor
        (k - (d.lastSourceLine : Int)) ⟨0, 0⟩ [], ?_, rfl, ?_, ?_, ?_⟩
      · rw [appendCodeBlock_sourceLines d b hd k, if_pos ⟨hnew, h1⟩]
      · simp only [SourceLineEntry.virtualLine]
        push_cast at hnew ⊢
        omega
      · simp only [SourceLineEntry.virtualLine]
        rw [hV']
        push_cast at h1 hnew ⊢
        omega
      · simp only [SourceLineEntry.virtualLine]
        rw [appendCodeBlock_virtualLines d b hd _]
        rw [if_neg (by push_cast at h1 hnew ⊢; omega)]
        rw [if_pos (by push_cast at h1 hnew ⊢; omega)]
        refine ⟨_, rfl, ?_⟩
        simp only [IVirtualLine.sourceLine]
        congr 1
        omega
    · obtain ⟨e, he, hf, hv0, hv1, ve, hve, hvs⟩ := hlink k h0 (by omega)
      refine ⟨e, ?_, hf, hv0, ?_, ve, ?_, hvs⟩
      · rw [appendCodeBlock_sourceLines d b hd k,
          if_neg (by push_cast at hnew ⊢; omega)]
        exact he
      · rw [hV']
        push_cast at hv1 ⊢
        omega
      · rw [appendCodeBlock_virtualLines d b hd _]
        rw [if_neg (by push_cast at hv1 ⊢; omega), if_neg (by push_cast at hv1 ⊢; omega)]
        exact hve
  · rw [countPadding, hV', hB', List.range_add, List.countP_append, List.range_add,
      List.countP_append]
    have hA : (List.range d.lastVirtualLine).countP (fun k : Nat =>
        match (d.appendCodeBlock b).virtualLines (k : Int) with
        | some e => e.sourceLine.isNone
        | none => false) = countPadding d := by
      rw [countPadding]
      refine List.countP_congr ?_
      intro x hx
      rw [List.mem_range] at hx
      rw [appendCodeBlock_virtualLines d b hd _]
      rw [if_neg (by push_cast; omega), if_neg (by push_cast; omega)]
    have hB : ((List.range (blockLineCount b)).map (d.lastVirtualLine + ·)).countP (fun k : Nat =>
        match (d.appendCodeBlock b).virtualLines (k : Int) with
        | some e => e.sourceLine.isNone
        | none => false) = 0 := by
      refine List.countP_eq_zero.mpr ?_
      intro x hx
      simp only [List.mem_map, List.mem_range] at hx
      obtain ⟨i, hi, rfl⟩ := hx
      rw [appendCodeBlock_virtualLines d b hd _]
      rw [if_neg (by push_cast; omega), if_pos (by push_cast; omega)]
      simp
    have hC : ((List.range d.blankLinesBetweenCells).map
        (d.lastVirtualLine + blockLineCount b + ·)).countP (fun k : Nat =>
        match (d.appendCodeBlock b).virtualLines (k : Int) with
        | some e => e.sourceLine.isNone
        | none => false) =
        ((List.range d.blankLinesBetweenCells).map
          (d.lastVirtualLine + blockLineCount b + ·)).length := by
      refine List.countP_eq_length.mpr ?_
      intro x hx
      simp only [List.mem_map, List.mem_range] at hx
      obtain ⟨i, hi, rfl⟩ := hx
      rw [appendCodeBlock_virtualLines d b hd _]
      rw [if_pos (by push_cast; omega)]
      simp
    rw [hA, hB, hC, hpad]
    simp
    ring

theorem buildInv_foldl (blocks : List CodeBlock) :
    ∀ (d : VDocState) (n t : Nat), BuildInv d n t →
      BuildInv (blocks.foldl (fun acc b => acc.appendCodeBlock b) d)
        (n + blocks.length) (t + totalLines blocks) := by
  induction blocks with
  | nil =>
    intro d n t inv
    simpa [totalLines] using inv
  | cons b blocks ih =>
    intro d n t inv
    rw [List.foldl_cons]
    have step := ih (d.appendCodeBlock b) (n + 1) (t + blockLineCount b)
      (buildInv_append inv b)
    have hn : n + 1 + blocks.length = n + (b :: blocks).length := by
      simp
      omega
    have ht : t + blockLineCount b + totalLines blocks = t + totalLines (b :: blocks) := by
      rw [totalLines, totalLines]
      simp
      omega
    rw [hn, ht] at step
    exact step

theorem buildInv_rebuilt (d : VDocState) (blocks : List CodeBlock)
    (hd : d.isDisposed = false) :
    BuildInv (rebuiltDoc d blocks) blocks.length (totalLines blocks) := by
  have h := buildInv_foldl blocks d.clear 0 0 (buildInv_clear d hd)
  rw [rebuiltDoc]
  simpa using h

/-! ## Claims about the connection manager -/

/-- C5: `isWithinRange` is inclusive on both ends. On a single-line range,
containment is exactly "same line, column between the endpoints' columns"; on
a multi-line range (the claim's "otherwise" presupposes the start line
precedes the end line), containment is exactly "line strictly between, or on
the start line at/after the start column, or on the end line at/before the
end column". The three literal cases of the spec hold. -/
theorem isWithinRange_spec :
    (∀ (position : CePosition) (range : CeRange),
      range.start.line = range.endPos.line →
      (isWithinRange position range = true ↔
        (position.line = range.start.line ∧
          range.start.column ≤ position.column ∧
          position.column ≤ range.endPos.column)))
    ∧ (∀ (position : CePosition) (range : CeRange),
      range.start.line < range.endPos.line →
      (isWithinRange position range = true ↔
        ((range.start.line < position.line ∧ position.line < range.endPos.line) ∨
          (position.line = range.start.line ∧ range.start.column ≤ position.column) ∨
          (position.line = range.endPos.line ∧ position.column ≤ range.endPos.column))))
    ∧ isWithinRange ⟨1, 5⟩ ⟨⟨1, 2⟩, ⟨1, 5⟩⟩ = true
    ∧ isWithinRange ⟨1, 6⟩ ⟨⟨1, 2⟩, ⟨1, 5⟩⟩ = false
    ∧ isWithinRange ⟨2, 0⟩ ⟨⟨1, 2⟩, ⟨3, 0⟩⟩ = true := by
  refine ⟨?_, ?_, by decide, by decide, by decide⟩
  · intro position range h
    rw [isWithinRange, if_pos h]
    simp only [decide_eq_true_eq]
    try omega
  · intro position range h
    rw [isWithinRange, if_neg (by omega)]
    simp only [decide_eq_true_eq]
    try omega

theorem isWithinRange_spec_witness :
    isWithinRange ⟨1, 3⟩ ⟨⟨1, 2⟩, ⟨1, 5⟩⟩ = true ∧
    isWithinRange ⟨2, 7⟩ ⟨⟨1, 2⟩, ⟨3, 0⟩⟩ = true :=
  ⟨(isWithinRange_spec.1 ⟨1, 3⟩ ⟨⟨1, 2⟩, ⟨1, 5⟩⟩ rfl).mpr (by decide),
    (isWithinRange_spec.2.1 ⟨2, 7⟩ ⟨⟨1, 2⟩, ⟨3, 0⟩⟩ (by decide)).mpr (by decide)⟩

/-- C2: two get-or-create calls for the same server id — the second issued
after the first's synchronous part (hence, in the single-threaded model,
before its transport setup resolves) — return the same physical connection,
the second call leaves the pool untouched (in particular no second `onCreate`),
the entry is registered when the synchronous body finishes, and `onCreate`
runs exactly once when the entry was created (and not at all on a cache
hit). -/
theorem connection_pool_singleton (st : PoolState) (serverId : String) :
    (Private.connection st serverId).1 =
      (Private.connection (Private.connection st serverId).2 serverId).1
    ∧ (Private.connection (Private.connection st serverId).2 serverId).2 =
      (Private.connection st serverId).2
    ∧ lookupConnection (Private.connection st serverId).2.connections serverId =
      some (Private.connection st serverId).1
    ∧ (lookupConnection st.connections serverId = none →
      (Private.connection st serverId).2.onCreateCalls =
        st.onCreateCalls ++ [(Private.connection st serverId).1])
    ∧ (∀ c, lookupConnection st.connections serverId = some c →
      (Private.connection st serverId).2.onCreateCalls = st.onCreateCalls) := by
  cases h : lookupConnection st.connections serverId with
  | some c =>
    simp only [Private.connection, h]
    simp [h]
  | none =>
    have hreg : lookupConnection
        (st.connections ++ [(serverId, st.nextConnectionId)]) serverId =
        some st.nextConnectionId :=
      lookupConnection_append_self st.connections serverId st.nextConnectionId h
    have h1 : Private.connection st serverId =
        (st.nextConnectionId,
          { connections := st.connections ++ [(serverId, st.nextConnectionId)]
            nextConnectionId := st.nextConnectionId + 1
            onCreateCalls := st.onCreateCalls ++ [st.nextConnectionId] }) := by
      simp only [Private.connection, h, hreg, Option.getD_some]
    have h2 : Private.connection (Private.connection st serverId).2 serverId =
        (st.nextConnectionId, (Private.connection st serverId).2) := by
      rw [h1]
      simp only [Private.connection, hreg, Option.getD_some]
    refine ⟨?_, ?_, ?_, ?_, ?_⟩
    · rw [h2, h1]
    · rw [h2]
    · rw [h1]; exact hreg
    · intro _; rw [h1]
    · intro c hc; simp at hc

theorem connection_pool_singleton_witness :
    (Private.connection ⟨[], 0, []⟩ "pylsp").1 =
      (Private.connection (Private.connection ⟨[], 0, []⟩ "pylsp").2 "pylsp").1
    ∧ (Private.connection ⟨[], 0, []⟩ "pylsp").2.onCreateCalls =
      [] ++ [(Private.connection ⟨[], 0, []⟩ "pylsp").1] :=
  ⟨(connection_pool_singleton ⟨[], 0, []⟩ "pylsp").1,
    (connection_pool_singleton ⟨[], 0, []⟩ "pylsp").2.2.2.1 rfl⟩

/-- C3 (the code, evaluated at the claim's failing input): with
`reconnectDelay = 1`, `retrialsLeft = 3` and every `connect` attempt failing,
the loop body never decrements `retrialsLeft`, so the guard
`retrialsLeft !== 0 && !success` never becomes false: after `fuel` iterations
the call has performed `fuel` connection attempts and is still running —
it does not stop after 3 attempts. The sleeps do grow 1000, 1500, 2000, … ms
(by 500 ms per failed attempt), and keep going. -/
theorem retryToConnect_never_stops :
    (∀ fuel : Nat,
      (DocumentConnectionManager.retryToConnect ⟨[]⟩ "python" 1 3 (fun _ => false)
        fuel).attempts = fuel
      ∧ (DocumentConnectionManager.retryToConnect ⟨[]⟩ "python" 1 3 (fun _ => false)
        fuel).success = false)
    ∧ (DocumentConnectionManager.retryToConnect ⟨[]⟩ "python" 1 3 (fun _ => false)
        4).sleeps = [1000, 1500, 2000, 2500] := by
  constructor
  · intro fuel
    rw [DocumentConnectionManager.retryToConnect, if_neg (by simp)]
    have := retryLoopRun_allFail 3 (by norm_num) fuel
      { success := false, interval := 1 * 1000, attempts := 0, sleeps := [] } rfl
    simpa using this
  · decide

/-- C6: once a `ConnectionRejected`-class failure (the `code = 1005` handler)
has added a language to `ignoredLanguages`, no session operation ever removes
it, and every later `retryToConnect` for that language returns immediately:
zero connection attempts, no sleeps, and no events. -/
theorem ignoredLanguages_permanent :
    (∀ (st : ManagerState) (ops : List ManagerOp) (language : String),
      st.ignoredLanguages.contains language = true →
      (applyOps st ops).1.ignoredLanguages.contains language = true)
    ∧ (∀ (st : ManagerState) (language : String) (reconnectDelay retrialsLeft : Int)
      (connectSucceeds : Nat → Bool) (fuel : Nat),
      st.ignoredLanguages.contains language = true →
      DocumentConnectionManager.retryToConnect st language reconnectDelay retrialsLeft
        connectSucceeds fuel =
        { success := false, interval := reconnectDelay * 1000, attempts := 0, sleeps := [] })
    ∧ (∀ (st : ManagerState) (language : String) (reconnectDelay retrialsLeft : Int)
      (connectSucceeds : Nat → Bool) (fuel : Nat),
      st.ignoredLanguages.contains language = true →
      (applyOp st (.retryToConnect language reconnectDelay retrialsLeft connectSucceeds
        fuel)).2 = [])
    ∧ (∀ (st : ManagerState) (language : String),
      (applyOp st (.connectionRejected language)).1.ignoredLanguages.contains language
        = true) := by
  have hretry : ∀ (st : ManagerState) (language : String)
      (reconnectDelay retrialsLeft : Int) (connectSucceeds : Nat → Bool) (fuel : Nat),
      st.ignoredLanguages.contains language = true →
      DocumentConnectionManager.retryToConnect st language reconnectDelay retrialsLeft
        connectSucceeds fuel =
        { success := false, interval := reconnectDelay * 1000, attempts := 0,
          sleeps := [] } := by
    intro st language reconnectDelay retrialsLeft connectSucceeds fuel h
    rw [DocumentConnectionManager.retryToConnect, if_pos h]
  refine ⟨?_, hretry, ?_, ?_⟩
  · intro st ops
    induction ops generalizing st with
    | nil => intro language h; exact h
    | cons op ops ih =>
      intro language h
      rw [applyOps]
      exact ih (applyOp st op).1 language (applyOp_ignored_mono st op language h)
  · intro st language reconnectDelay retrialsLeft connectSucceeds fuel h
    simp [applyOp, hretry st language reconnectDelay retrialsLeft connectSucceeds fuel h]
  · intro st language
    rw [applyOp, ManagerState.addIgnored]
    by_cases hc : st.ignoredLanguages.contains language
    · rw [if_pos hc]; exact hc
    · rw [if_neg hc]; simp

theorem ignoredLanguages_permanent_witness :
    (applyOps ⟨["r"]⟩ [.connect "python", .connectionRejected "julia"]).1.ignoredLanguages.contains "r" = true
    ∧ DocumentConnectionManager.retryToConnect ⟨["r"]⟩ "r" 1 (-1) (fun _ => true) 5 =
      { success := false, interval := 1 * 1000, attempts := 0, sleeps := [] } :=
  ⟨ignoredLanguages_permanent.1 ⟨["r"]⟩ [.connect "python", .connectionRejected "julia"]
      "r" (by decide),
    ignoredLanguages_permanent.2.1 ⟨["r"]⟩ "r" 1 (-1) (fun _ => true) 5 (by decide)⟩

/-- C8 counterexample: with the `canUpdate()` poll returning false at every
poll (rebuild in progress / lock held), the `untilReady(…, 10, 5)` guard
exhausts its budget and rejects; the claim says the update then "proceeds
anyway" and the returned promise settles, but in fact the rebuild does not run
and the promise stays pending forever. -/
theorem updateDocuments_exhausted_counterexample :
    (UpdateManager.updateDocuments (fun _ => false) (mkVirtualDocument "python" false 0)
      [] 20).rebuildRan = false
    ∧ (UpdateManager.updateDocuments (fun _ => false) (mkVirtualDocument "python" false 0)
      [] 20).promise = .pending
    ∧ untilReady (fun _ => false) 10 20 = .rejected "Too many retrials" :=
  ⟨rfl, rfl, rfl⟩

/-- C8 as amended: when the bounded poll-wait of `updateDocuments` exhausts
its retry budget, the `untilReady` promise rejects, the rebuild callback is
skipped (the document is left untouched, no `changed` signal), and the
returned promise never settles. -/
theorem updateDocuments_exhausted_behavior (canUpdate : Nat → Bool) (doc : VDocState)
    (blocks : List CodeBlock) (fuel : Nat) (msg : String)
    (h : untilReady canUpdate 10 fuel = .rejected msg) :
    UpdateManager.updateDocuments canUpdate doc blocks fuel =
      { doc := doc, rebuildRan := false, changedEmitted := false, promise := .pending } := by
  rw [UpdateManager.updateDocuments, h]

theorem updateDocuments_exhausted_behavior_witness :
    UpdateManager.updateDocuments (fun _ => false) (mkVirtualDocument "r" false 1) [] 12 =
      { doc := mkVirtualDocument "r" false 1, rebuildRan := false, changedEmitted := false,
        promise := .pending } :=
  updateDocuments_exhausted_behavior (fun _ => false) (mkVirtualDocument "r" false 1) [] 12
    "Too many retrials" rfl

/-! ## Claims about the virtual document -/

theorem withPreviousValue_proj (d : VDocState) (pv : Option String) :
    (d.withPreviousValue pv).language = d.language
    ∧ (d.withPreviousValue pv).isDisposed = d.isDisposed
    ∧ (d.withPreviousValue pv).blankLinesBetweenCells = d.blankLinesBetweenCells
    ∧ (d.withPreviousValue pv).lineBlocks = d.lineBlocks
    ∧ (d.withPreviousValue pv).previousValue = pv := by
  cases d
  exact ⟨rfl, rfl, rfl, rfl, rfl⟩

theorem rebuiltDoc_idPath (d : VDocState) (blocks : List CodeBlock) :
    (rebuiltDoc d blocks).idPath = d.idPath := by
  rw [VDocState.idPath, VDocState.idPath, VDocState.virtualId, VDocState.virtualId,
    (rebuiltDoc_static d blocks).1, (rebuiltDoc_static d blocks).2.1,
    (rebuiltDoc_static d blocks).2.2.1]

/-- C9 counterexample: the claim says the position-lookup operations never
throw; but on a rebuilt one-block document, `virtualPositionAtDocument` at the
unmapped source line 5 throws a `PositionError`, and
`transformVirtualToSource` at the out-of-range virtual line 50 dereferences
`undefined` (a TypeError) instead of returning the explicit "no result". -/
theorem positionLookup_throws_counterexample :
    (rebuiltDoc (mkVirtualDocument "python" false 2) [⟨0, "a"⟩]).virtualPositionAtDocument 1
      ⟨5, 0⟩ = .error (.positionError "Source line not mapped to virtual position")
    ∧ (rebuiltDoc (mkVirtualDocument "python" false 2) [⟨0, "a"⟩]).transformVirtualToSource
      ⟨50, 0⟩ = .error .typeError := by
  constructor
  · have hs : (rebuiltDoc (mkVirtualDocument "python" false 2) [⟨0, "a"⟩]).sourceLines
        ((5 : Int)) = none := rfl
    show (rebuiltDoc (mkVirtualDocument "python" false 2) [⟨0, "a"⟩]).virtualPositionAtDocument
      (0 + 1) ⟨5, 0⟩ = _
    rw [VDocState.virtualPositionAtDocument]
    simp only [hs]
  · rfl

/-- C9 as amended: only the padding case is signalled as an explicit `null`.
`transformVirtualToSource` never throws on a virtual line present in
`virtualLines` (it returns the recorded source line, or the explicit `null`
when that line is `null`), and `transformVirtualToEditor` returns the explicit
`null` without throwing on padding lines (`null` recorded source line); but
absence of a mapping is not in general non-throwing:
`virtualPositionAtDocument` throws a `PositionError` when the source
position's line has no mapping, and both `transformVirtualToSource` and
`transformVirtualToEditor` throw a TypeError (through `.get(line)!`) when the
virtual line is absent from the map. -/
theorem positionLookup_absence_behavior :
    (∀ (d : VDocState) (p : VirtualPos) (e : IVirtualLine),
      d.virtualLines p.line = some e →
      d.transformVirtualToSource p = .ok (e.sourceLine.map fun l => ⟨l, p.ch⟩))
    ∧ (∀ (d : VDocState) (p : VirtualPos) (e : IVirtualLine),
      d.virtualLines p.line = some e → e.sourceLine = none →
      d.transformVirtualToEditor p = .ok none)
    ∧ (∀ (d : VDocState) (p : VirtualPos),
      d.virtualLines p.line = none → d.transformVirtualToSource p = .error .typeError)
    ∧ (∀ (d : VDocState) (p : VirtualPos),
      d.virtualLines p.line = none → d.transformVirtualToEditor p = .error .typeError)
    ∧ (∀ (d : VDocState) (p : SourcePos) (fuel : Nat),
      d.sourceLines p.line = none →
      d.virtualPositionAtDocument (fuel + 1) p =
        .error (.positionError "Source line not mapped to virtual position")) := by
  have htvts : ∀ (d : VDocState) (p : VirtualPos) (e : IVirtualLine),
      d.virtualLines p.line = some e →
      d.transformVirtualToSource p = .ok (e.sourceLine.map fun l => ⟨l, p.ch⟩) := by
    intro d p e h
    rw [VDocState.transformVirtualToSource]
    simp only [h]
    cases e.sourceLine with
    | none => rfl
    | some l => rfl
  have htvtsAbsent : ∀ (d : VDocState) (p : VirtualPos),
      d.virtualLines p.line = none → d.transformVirtualToSource p = .error .typeError := by
    intro d p h
    rw [VDocState.transformVirtualToSource]
    simp only [h]
  refine ⟨htvts, ?_, htvtsAbsent, ?_, ?_⟩
  · intro d p e h hnone
    rw [VDocState.transformVirtualToEditor, htvts d p e h, hnone]
    rfl
  · intro d p h
    rw [VDocState.transformVirtualToEditor, htvtsAbsent d p h]
  · intro d p fuel h
    rw [VDocState.virtualPositionAtDocument]
    simp only [h]

theorem positionLookup_absence_behavior_witness :
    (mkVirtualDocument "r" false 3).transformVirtualToSource ⟨0, 0⟩ = .error .typeError
    ∧ (mkVirtualDocument "r" false 3).transformVirtualToEditor ⟨0, 0⟩ = .error .typeError
    ∧ (mkVirtualDocument "r" false 3).virtualPositionAtDocument 1 ⟨0, 0⟩ =
      .error (.positionError "Source line not mapped to virtual position") :=
  ⟨positionLookup_absence_behavior.2.2.1 (mkVirtualDocument "r" false 3) ⟨0, 0⟩ rfl,
    positionLookup_absence_behavior.2.2.2.1 (mkVirtualDocument "r" false 3) ⟨0, 0⟩ rfl,
    positionLookup_absence_behavior.2.2.2.2 (mkVirtualDocument "r" false 3) ⟨0, 0⟩ 0 rfl⟩

/-- C1: for a document rebuilt by appending blocks — which in this code never
record embedded sub-documents (`appendCodeBlock` always writes an empty
`foreignDocumentsMap`) — every source position on a mapped source line (the
non-padding positions: padding exists only on the virtual side) round-trips:
`virtualPositionAtDocument` produces a virtual position which
`transformVirtualToSource` maps back to exactly the original position. -/
theorem sourceToVirtualToSource_roundTrip (d : VDocState) (blocks : List CodeBlock)
    (hd : d.isDisposed = false) (p : SourcePos) (f : Nat)
    (h0 : 0 ≤ p.line) (h1 : p.line < ((rebuiltDoc d blocks).lastSourceLine : Int)) :
    ∃ v, (rebuiltDoc d blocks).virtualPositionAtDocument (f + 1) p = .ok v ∧
      (rebuiltDoc d blocks).transformVirtualToSource v = .ok (some p) := by
  obtain ⟨e, he, hf, _, _, ve, hve, hvs⟩ :=
    (buildInv_rebuilt d blocks hd).link p.line h0 h1
  refine ⟨⟨e.virtualLine, p.ch⟩, ?_, ?_⟩
  · rw [VDocState.virtualPositionAtDocument]
    simp only [he, hf]
    try rw [virtualPositionLoop]
  · rw [VDocState.transformVirtualToSource]
    simp only [hve, hvs]

theorem sourceToVirtualToSource_roundTrip_witness :
    (0 : Int) ≤ 1
    ∧ (1 : Int) <
      ((rebuiltDoc (mkVirtualDocument "python" false 4) [⟨0, "a\nb"⟩]).lastSourceLine : Int)
    ∧ ∃ v, (rebuiltDoc (mkVirtualDocument "python" false 4)
        [⟨0, "a\nb"⟩]).virtualPositionAtDocument (0 + 1) ⟨1, 7⟩ = .ok v ∧
      (rebuiltDoc (mkVirtualDocument "python" false 4) [⟨0, "a\nb"⟩]).transformVirtualToSource
        v = .ok (some ⟨1, 7⟩) :=
  ⟨by decide, by decide,
    sourceToVirtualToSource_roundTrip (mkVirtualDocument "python" false 4) [⟨0, "a\nb"⟩]
      rfl ⟨1, 7⟩ 0 (by decide) (by decide)⟩

/-- C7: the `blankLinesBetweenCells` separator lines appended after a block's
code lines are recorded with a `null` source line at append time
(`skipInspect` set to the document's `idPath`), and `transformVirtualToSource`
at any such line returns the explicit "no result" (`null`), never a fabricated
source line. `(rebuiltDoc d bs1).lastVirtualLine + blockLineCount b + i` is
the `i`-th separator line following block `b` in the document rebuilt from
`bs1 ++ b :: bs2`. -/
theorem padding_transformVirtualToSource_none (d : VDocState) (bs1 bs2 : List CodeBlock)
    (b : CodeBlock) (hd : d.isDisposed = false) (i : Nat)
    (hi : i < d.blankLinesBetweenCells) (ch : Int) :
    (rebuiltDoc d (bs1 ++ b :: bs2)).virtualLines
        (((rebuiltDoc d bs1).lastVirtualLine + blockLineCount b + i : Nat) : Int) =
      some ⟨[d.idPath], none, b.ceEditor⟩
    ∧ (rebuiltDoc d (bs1 ++ b :: bs2)).transformVirtualToSource
        ⟨((rebuiltDoc d bs1).lastVirtualLine + blockLineCount b + i : Nat), ch⟩ =
      .ok none := by
  have hPrevD : (rebuiltDoc d bs1).isDisposed = false :=
    ((rebuiltDoc_static d bs1).2.2.2.1).trans hd
  have hPrevB : (rebuiltDoc d bs1).blankLinesBetweenCells = d.blankLinesBetweenCells :=
    (rebuiltDoc_static d bs1).2.2.2.2.1
  have hfull : rebuiltDoc d (bs1 ++ b :: bs2) =
      bs2.foldl (fun acc bb => acc.appendCodeBlock bb)
        ((rebuiltDoc d bs1).appendCodeBlock b) := by
    rw [rebuiltDoc, rebuiltDoc, List.foldl_append, List.foldl_cons]
  have hmid : ((rebuiltDoc d bs1).appendCodeBlock b).virtualLines
      (((rebuiltDoc d bs1).lastVirtualLine + blockLineCount b + i : Nat) : Int) =
      some ⟨[(rebuiltDoc d bs1).idPath], none, b.ceEditor⟩ := by
    rw [appendCodeBlock_virtualLines (rebuiltDoc d bs1) b hPrevD _]
    rw [if_pos (by rw [hPrevB]; push_cast; omega)]
  have hlt : (((rebuiltDoc d bs1).lastVirtualLine + blockLineCount b + i : Nat) : Int) <
      ((((rebuiltDoc d bs1).appendCodeBlock b).lastVirtualLine : Nat) : Int) := by
    rw [(appendCodeBlock_counters (rebuiltDoc d bs1) b hPrevD).2.1, hPrevB]
    push_cast
    omega
  have hpres := (foldl_preserves_below bs2 ((rebuiltDoc d bs1).appendCodeBlock b)
    (((rebuiltDoc d bs1).lastVirtualLine + blockLineCount b + i : Nat) : Int) hlt).1
  have hvl : (rebuiltDoc d (bs1 ++ b :: bs2)).virtualLines
      (((rebuiltDoc d bs1).lastVirtualLine + blockLineCount b + i : Nat) : Int) =
      some ⟨[d.idPath], none, b.ceEditor⟩ := by
    rw [hfull, hpres, hmid, rebuiltDoc_idPath d bs1]
  refine ⟨hvl, ?_⟩
  rw [VDocState.transformVirtualToSource]
  simp only [hvl]

theorem padding_transformVirtualToSource_none_witness :
    (1 : Nat) < (mkVirtualDocument "julia" false 9).blankLinesBetweenCells
    ∧ (rebuiltDoc (mkVirtualDocument "julia" false 9) ([⟨0, "a"⟩] ++ ⟨1, "b\nc"⟩ :: [])).virtualLines
        (((rebuiltDoc (mkVirtualDocument "julia" false 9) [⟨0, "a"⟩]).lastVirtualLine +
          blockLineCount ⟨1, "b\nc"⟩ + 1 : Nat) : Int) =
      some ⟨[(mkVirtualDocument "julia" false 9).idPath], none, 1⟩
    ∧ (rebuiltDoc (mkVirtualDocument "julia" false 9)
        ([⟨0, "a"⟩] ++ ⟨1, "b\nc"⟩ :: [])).transformVirtualToSource
        ⟨((rebuiltDoc (mkVirtualDocument "julia" false 9) [⟨0, "a"⟩]).lastVirtualLine +
          blockLineCount ⟨1, "b\nc"⟩ + 1 : Nat), 3⟩ = .ok none := by
  have h := padding_transformVirtualToSource_none (mkVirtualDocument "julia" false 9)
    [⟨0, "a"⟩] [] ⟨1, "b\nc"⟩ rfl 1 (by decide) 3
  exact ⟨by decide, h.1, h.2⟩

/-- C10: after `clear()` followed by appending `n` blocks on a non-disposed
document, `lastSourceLine` is the total line count of the blocks,
`lastVirtualLine` adds `n * blankLinesBetweenCells`, the two maps hold entries
exactly for the indices below their respective counters, and exactly
`n * blankLinesBetweenCells` entries of `virtualLines` have a `null` source
line (the padding). -/
theorem rebuild_state_invariant (d : VDocState) (blocks : List CodeBlock)
    (hd : d.isDisposed = false) :
    (rebuiltDoc d blocks).lastSourceLine = totalLines blocks
    ∧ (rebuiltDoc d blocks).lastVirtualLine =
      totalLines blocks + blocks.length * d.blankLinesBetweenCells
    ∧ (∀ k : Int, ((rebuiltDoc d blocks).virtualLines k).isSome = true ↔
      (0 ≤ k ∧ k < ((rebuiltDoc d blocks).lastVirtualLine : Int)))
    ∧ (∀ k : Int, ((rebuiltDoc d blocks).sourceLines k).isSome = true ↔
      (0 ≤ k ∧ k < ((rebuiltDoc d blocks).lastSourceLine : Int)))
    ∧ countPadding (rebuiltDoc d blocks) = blocks.length * d.blankLinesBetweenCells := by
  obtain ⟨_, hS, hV, hsrc, hvirt, _, hpad⟩ := buildInv_rebuilt d blocks hd
  have hB := (rebuiltDoc_static d blocks).2.2.2.2.1
  exact ⟨hS, by rw [hV, hB], hvirt, hsrc, by rw [hpad, hB]⟩

theorem rebuild_state_invariant_witness :
    (rebuiltDoc (mkVirtualDocument "python" false 5) [⟨0, "a\nb"⟩, ⟨1, "c"⟩]).lastSourceLine = 3
    ∧ (rebuiltDoc (mkVirtualDocument "python" false 5)
        [⟨0, "a\nb"⟩, ⟨1, "c"⟩]).lastVirtualLine = 7
    ∧ countPadding (rebuiltDoc (mkVirtualDocument "python" false 5) [⟨0, "a\nb"⟩, ⟨1, "c"⟩])
      = 4 := by
  have h := rebuild_state_invariant (mkVirtualDocument "python" false 5)
    [⟨0, "a\nb"⟩, ⟨1, "c"⟩] rfl
  refine ⟨?_, ?_, ?_⟩
  · rw [h.1]; decide
  · rw [h.2.1]; decide
  · rw [h.2.2.2.2]; decide

/-- C4: rebuilding twice with identical blocks through `updateDocuments` (with
an immediately-available update slot) fires the `changed` signal at most once:
it fires on the first rebuild exactly when the rebuilt text differs from the
remembered `previousValue`, and the second, identical rebuild never re-fires
it (its text equals the now-remembered value). -/
theorem updateDocuments_idempotent_signal (doc : VDocState) (blocks : List CodeBlock)
    (hd : doc.isDisposed = false) :
    (UpdateManager.updateDocuments (fun _ => true)
      (UpdateManager.updateDocuments (fun _ => true) doc blocks 1).doc blocks
      1).changedEmitted = false
    ∧ (doc.previousValue ≠ some (rebuiltDoc doc blocks).value →
      (UpdateManager.updateDocuments (fun _ => true) doc blocks 1).changedEmitted = true) := by
  have hu : untilReady (fun _ => true) 10 1 = .resolved () := rfl
  have heval : ∀ dd : VDocState, UpdateManager.updateDocuments (fun _ => true) dd blocks 1 =
      { doc := (rebuiltDoc dd blocks).withPreviousValue (some (rebuiltDoc dd blocks).value)
        rebuildRan := true
        changedEmitted :=
          decide (some (rebuiltDoc dd blocks).value ≠ (rebuiltDoc dd blocks).previousValue)
        promise := .resolved () } := by
    intro dd
    rw [UpdateManager.updateDocuments, hu]
    simp only [maybeEmitChanged_eval]
  set d2 := (rebuiltDoc doc blocks).withPreviousValue (some (rebuiltDoc doc blocks).value)
    with hd2
  have hfirstdoc : (UpdateManager.updateDocuments (fun _ => true) doc blocks 1).doc = d2 := by
    rw [heval doc]
  have hd2disp : d2.isDisposed = false := by
    rw [hd2, (withPreviousValue_proj _ _).2.1, (rebuiltDoc_static doc blocks).2.2.2.1]
    exact hd
  have hd2blank : d2.blankLinesBetweenCells = doc.blankLinesBetweenCells := by
    rw [hd2, (withPreviousValue_proj _ _).2.2.1, (rebuiltDoc_static doc blocks).2.2.2.2.1]
  have hd2prev : d2.previousValue = some (rebuiltDoc doc blocks).value := by
    rw [hd2, (withPreviousValue_proj _ _).2.2.2.2]
  have hsameValue : (rebuiltDoc d2 blocks).value = (rebuiltDoc doc blocks).value := by
    rw [rebuiltDoc_value d2 blocks hd2disp, rebuiltDoc_value doc blocks hd, hd2blank]
  constructor
  · rw [hfirstdoc, heval d2]
    show decide (some (rebuiltDoc d2 blocks).value ≠ (rebuiltDoc d2 blocks).previousValue)
      = false
    rw [(rebuiltDoc_static d2 blocks).2.2.2.2.2, hd2prev, hsameValue]
    simp
  · intro hdiff
    rw [heval doc]
    simp only [(rebuiltDoc_static doc blocks).2.2.2.2.2]
    simp only [decide_eq_true_eq]
    exact fun hcontra => hdiff hcontra.symm

theorem updateDocuments_idempotent_signal_witness :
    (UpdateManager.updateDocuments (fun _ => true)
      (UpdateManager.updateDocuments (fun _ => true) (mkVirtualDocument "python" false 7)
        [⟨0, "x"⟩] 1).doc [⟨0, "x"⟩] 1).changedEmitted = false
    ∧ (UpdateManager.updateDocuments (fun _ => true) (mkVirtualDocument "python" false 7)
      [⟨0, "x"⟩] 1).changedEmitted = true :=
  ⟨(updateDocuments_idempotent_signal (mkVirtualDocument "python" false 7) [⟨0, "x"⟩] rfl).1,
    (updateDocuments_idempotent_signal (mkVirtualDocument "python" false 7) [⟨0, "x"⟩] rfl).2
      (fun hcontra => Option.noConfusion hcontra)⟩

end JlabLsp
